import Mathlib

/-!
Verification of the thriftgo patcher of the kitex code generator
(`tool/internal/pkg/pluginmode/thriftgo/patcher.go`).

The Go source is shallowly embedded: Go strings become `String`, Go slices
become `List`, the in-place-mutated `map[string]string` import mapping
becomes an association list, Go's `(T, error)` results become
`Except String T` (an error is its message), and the external collaborators
(`*golang.CodeUtils`, the template engine, the file system) become explicit
function-valued fields of an environment record.  `filepath.Join`,
`filepath.Split`, `filepath.Dir` and `filepath.Base` are modelled for
clean slash-separated paths: `Split` cuts after the last `/` (the directory
part keeps its trailing slash), and joining a split directory with a
slash-free name is string concatenation.
-/

namespace KitexPatcher

/-- Characters of a path split after the last slash, as Go's
`filepath.Split`: the first component (directory) is everything up to and
including the last `/` (empty if there is none), the second (file name)
is the rest. -/
def splitFile : List Char → List Char × List Char
  | [] => ([], [])
  | c :: cs =>
    let r := splitFile cs
    if r.1 = [] then
      if c = '/' then (['/'], r.2) else ([], c :: r.2)
    else (c :: r.1, r.2)

/-- Go `filepath.Split` on strings. -/
def filepathSplit (p : String) : String × String :=
  (String.mk (splitFile p.data).1, String.mk (splitFile p.data).2)

/-- Go `filepath.Join` of a root and a relative path, for clean inputs. -/
def filepathJoin (a b : String) : String :=
  if a = "" then b else a ++ "/" ++ b

/-- Directory part of a path (with its trailing slash), as produced by
`filepath.Split`. -/
def dirOf (p : String) : String :=
  (filepathSplit p).1

/-- Go `filepath.Base` for clean paths: the part after the last slash. -/
def filepathBase (p : String) : String :=
  (filepathSplit p).2

/-- Go `strings.HasPrefix p s` (here `strStartsWith s p`: does `s` start
with `p`?). -/
def strStartsWith (s p : String) : Bool :=
  p.data.isPrefixOf s.data

/-- Go `strings.Contains s "."` for a single-character pattern. -/
def strHasChar (s : String) (c : Char) : Bool :=
  s.data.contains c

/-- Boolean test that `sub` occurs contiguously inside `l`. -/
def isSubChars (sub : List Char) : List Char → Bool
  | [] => sub.isEmpty
  | c :: cs => sub.isPrefixOf (c :: cs) || isSubChars sub cs

/-- Does the string `s` contain `sub` as a contiguous substring?  Used to
state that an error message carries a document's filename. -/
def containsStr (s sub : String) : Bool :=
  isSubChars sub.data s.data

/-- Go's `%q` verb on a plain name: surround with double quotes
(escaping of special characters is not modelled; filenames here are
plain). -/
def goQuote (s : String) : String :=
  "\"" ++ s ++ "\""

/-- A `parser.Type` as far as the patcher inspects it: its name
(`f.Type.Name`). -/
structure FieldType where
  name : String
deriving DecidableEq

/-- A `parser.Field`: its name and declared type. -/
structure Field where
  name : String
  type : FieldType
deriving DecidableEq

/-- A `parser.StructLike`: a named aggregate with ordered fields. -/
structure StructLike where
  name : String
  fields : List Field
deriving DecidableEq

/-- A `parser.Thrift` document as far as the patcher inspects it: its
filename and the struct-like declarations returned by `GetStructLike`. -/
structure Thrift where
  filename : String
  structs : List StructLike
deriving DecidableEq

/-- A `plugin.Generated` output unit: file content and file path
(the Go `Name *string` is always set by the patcher). -/
structure Generated where
  content : String
  name : String
deriving DecidableEq

/-- The `kitexUnusedProtection` raw-string constant of patcher.go. -/
def kitexUnusedProtection : String :=
  "\n// KitexUnusedProtection is used to prevent \x27imported and not used\x27 error.\nvar KitexUnusedProtection = struct\x7b\x7d\x7b\x7d\n"

/-- Content of a protection file: `"package " + pkgName + "\n" +
kitexUnusedProtection` (patch, line 106). -/
def protContent (pkgName : String) : String :=
  "package " ++ pkgName ++ "\n" ++ kitexUnusedProtection

/-- Per-document target path: the directory joined with the `"k-"`-prefixed
base name (patch, line 99). -/
def targetPath (dir base : String) : String :=
  dir ++ ("k-" ++ base)

/-- Protection file path for a directory: the directory joined with the
fixed name `"k-consts.go"` (patch, line 103). -/
def constsPath (dir : String) : String :=
  dir ++ "k-consts.go"

/-- The `typeIDToGoType` table of patcher.go (a Go map literal, modelled
as an association list). -/
def typeIDToGoType : List (String × String) :=
  [("Bool", "bool"), ("Byte", "int8"), ("I16", "int16"), ("I32", "int32"),
   ("I64", "int64"), ("Double", "float64"), ("String", "string"),
   ("Binary", "[]byte")]

/-- The `TypeIDToGoType` template helper:
`func(t string) string { return typeIDToGoType[t] }` — a Go map lookup
returning the zero value `""` for absent keys. -/
def TypeIDToGoType (t : String) : String :=
  (typeIDToGoType.lookup t).getD ""

/-- `filterStdLib`: keep an import entry if its path lies under the local
module (the loop `continue`s), otherwise drop it when it equals the legacy
apache thrift runtime path, starts with the thriftgo prefix, or contains
no dot.  Go mutates the map in place while ranging; since each iteration
only ever deletes its own key, this equals a filter of the entries. -/
def filterStdLib (module : String) (imports : List (String × String)) :
    List (String × String) :=
  imports.filter fun e =>
    if strStartsWith e.1 (module ++ "/") then true
    else if e.1 = "github.com/apache/thrift/lib/go/thrift" then false
    else if strStartsWith e.1 "github.com/cloudwego/thriftgo" then false
    else if !(strHasChar e.1 '.') then false
    else true

/-- `filterBase`: scan every field of every struct-like; a field whose
unexported name is `"base"` with type name `"base.Base"` appends the
owning struct to `Requests`, one named `"baseResp"` with type
`"base.BaseResp"` appends it to `Responses`.  The external
`utils.Unexport` returns a value and an error; the Go code discards the
error (`fn, _ :=`), so it is modelled as a pair whose second component is
never read. -/
def filterBaseField (unexport : String → String × Option String)
    (s : StructLike) (acc : List StructLike × List StructLike) (f : Field) :
    List StructLike × List StructLike :=
  let fn := (unexport f.name).1
  let tn := f.type.name
  let acc1 :=
    if fn = "base" ∧ tn = "base.Base" then (acc.1 ++ [s], acc.2) else acc
  if fn = "baseResp" ∧ tn = "base.BaseResp" then (acc1.1, acc1.2 ++ [s])
  else acc1

def filterBaseStruct (unexport : String → String × Option String)
    (acc : List StructLike × List StructLike) (s : StructLike) :
    List StructLike × List StructLike :=
  s.fields.foldl (filterBaseField unexport s) acc

def filterBase (unexport : String → String × Option String) (ast : Thrift) :
    List StructLike × List StructLike :=
  ast.structs.foldl (filterBaseStruct unexport) ([], [])

/-- Does this field match the request-envelope shape tested by
`filterBase`? -/
def isBaseField (unexport : String → String × Option String) (f : Field) :
    Bool :=
  decide ((unexport f.name).1 = "base" ∧ f.type.name = "base.Base")

/-- Does this field match the response-envelope shape tested by
`filterBase`? -/
def isBaseRespField (unexport : String → String × Option String) (f : Field) :
    Bool :=
  decide ((unexport f.name).1 = "baseResp" ∧ f.type.name = "base.BaseResp")

/-- First loop of `reorderStructFields`: classify every field with the
external `utils.IsFixedLengthType`, failing on the first classifier
error.  The Go `map[*parser.Field]bool` keyed by each field's identity is
modelled as the list of fields paired with their flags. -/
def classifyFields (cls : FieldType → Except String Bool) :
    List Field → Except String (List (Field × Bool))
  | [] => .ok []
  | f :: fs =>
    match cls f.type with
    | .error e => .error e
    | .ok b =>
      match classifyFields cls fs with
      | .error e => .error e
      | .ok rest => .ok ((f, b) :: rest)

/-- `reorderStructFields`: classify all fields, then emit the fixed-length
ones in order followed by the remaining ones in order. -/
def reorderStructFields (cls : FieldType → Except String Bool)
    (fields : List Field) : Except String (List Field) :=
  match classifyFields cls fields with
  | .error e => .error e
  | .ok pairs =>
    .ok ((pairs.filter (fun p => p.2)).map Prod.fst ++
         (pairs.filter (fun p => !p.2)).map Prod.fst)

/-- Is the field's classification `.ok true` (fixed width)? -/
def classifiesFixed (cls : FieldType → Except String Bool) (f : Field) :
    Bool :=
  match cls f.type with
  | .ok b => b
  | .error _ => false

/-- Is the field's classification `.ok false` (variable width)? -/
def classifiesVar (cls : FieldType → Except String Bool) (f : Field) :
    Bool :=
  match cls f.type with
  | .ok b => !b
  | .error _ => false

/-- The render context built for the `"file"` template: the document, its
package name and the filtered imports (`golang.Data`). -/
structure RenderData where
  ast : Thrift
  pkgName : String
  imports : List (String × String)

/-- The patcher's configuration together with its external collaborators:
`utils.BuildScope`/`SetRootScope` (only its success matters here — its
effect on later util calls is captured by keying those on the document),
`utils.GetFilePath`, `utils.ResolveImports`, the composite
`NamespaceToPackage (GetNamespaceOrReferenceName "go")`, template
execution for the `"file"` template, and `ioutil.ReadFile`. -/
structure PatchEnv where
  buildScope : Thrift → Except String Unit
  getFilePath : Thrift → Except String String
  resolveImports : Thrift → Except String (List (String × String))
  namespaceToPackage : Thrift → String
  renderFile : RenderData → Except String String
  readFile : String → Except String String
  outputPath : String
  module : String
  copyIDL : Bool

/-- Protection-file bookkeeping of `patch` (lines 101-111): if no
protection unit was created yet for this `consts` path, append one and
register the path. -/
def addProtection (st : List String × List Generated)
    (consts pkgName : String) : List String × List Generated :=
  if consts ∈ st.1 then st
  else (consts :: st.1, st.2 ++ [Generated.mk (protContent pkgName) consts])

/-- One iteration of the `patch` loop for one document: resolve the scope,
compute paths, lazily append the per-directory protection unit, resolve
and filter imports, render, and optionally copy the IDL source.  The
state is the protection registry (the keys of the Go `protection` map)
and the accumulated output units. -/
def patchStep (env : PatchEnv) (st : List String × List Generated)
    (ast : Thrift) : Except String (List String × List Generated) :=
  match env.buildScope ast with
  | .error e =>
    .error ("build scope for ast " ++ goQuote ast.filename ++ ": " ++ e)
  | .ok _ =>
    let pkgName := env.namespaceToPackage ast
    match env.getFilePath ast with
    | .error e => .error e
    | .ok path =>
      let full := filepathJoin env.outputPath path
      let dir := (filepathSplit full).1
      let base := (filepathSplit full).2
      let target := targetPath dir base
      let consts := constsPath dir
      let st1 := addProtection st consts pkgName
      match env.resolveImports ast with
      | .error e =>
        .error ("resolve imports failed for " ++ goQuote ast.filename ++
                ": " ++ e)
      | .ok imports =>
        let data : RenderData :=
          ⟨ast, pkgName, filterStdLib env.module imports⟩
        match env.renderFile data with
        | .error e => .error (goQuote ast.filename ++ ": " ++ e)
        | .ok content =>
          let st2 := (st1.1, st1.2 ++ [Generated.mk content target])
          if env.copyIDL then
            match env.readFile ast.filename with
            | .error e =>
              .error ("read " ++ goQuote ast.filename ++ ": " ++ e)
            | .ok src =>
              .ok (st2.1,
                   st2.2 ++
                     [Generated.mk src (dir ++ filepathBase ast.filename)])
          else .ok st2

/-- The `patch` loop over the documents in depth-first order, threading
the protection registry and the output list. -/
def patchGo (env : PatchEnv) :
    List String × List Generated → List Thrift →
    Except String (List String × List Generated)
  | st, [] => .ok st
  | st, ast :: rest =>
    match patchStep env st ast with
    | .error e => .error e
    | .ok st2 => patchGo env st2 rest

/-- `patch`: run the loop from an empty registry and output list over the
documents (the depth-first traversal order of `req.AST`); on any error the
Go function returns `(nil, err)`, i.e. no output list. -/
def patch (env : PatchEnv) (asts : List Thrift) :
    Except String (List Generated) :=
  match patchGo env ([], []) asts with
  | .error e => .error e
  | .ok st => .ok st.2

/-! ### String and path lemmas -/

theorem str_data_append (s t : String) : (s ++ t).data = s.data ++ t.data := by
  cases s
  cases t
  rfl

theorem str_append_cancel_left {s t u : String} (h : s ++ t = s ++ u) :
    t = u := by
  have hd : s.data ++ t.data = s.data ++ u.data := by
    have h2 := congrArg String.data h
    rwa [str_data_append, str_data_append] at h2
  have h3 := List.append_cancel_left hd
  cases t
  cases u
  exact congrArg String.mk h3

theorem isPrefixOf_self_append (s t : List Char) :
    s.isPrefixOf (s ++ t) = true := by
  induction s with
  | nil => simp [List.isPrefixOf]
  | cons c cs ih => simp [List.isPrefixOf, ih]

theorem isSubChars_nil_sub (l : List Char) : isSubChars [] l = true := by
  cases l with
  | nil => rfl
  | cons c cs => simp [isSubChars, List.isPrefixOf]

theorem isSubChars_self_append (s b : List Char) :
    isSubChars s (s ++ b) = true := by
  cases s with
  | nil => simpa using isSubChars_nil_sub b
  | cons c cs =>
    simp only [List.cons_append, isSubChars]
    simp [List.append_eq, List.isPrefixOf, isPrefixOf_self_append]

theorem isSubChars_append (a s b : List Char) :
    isSubChars s (a ++ (s ++ b)) = true := by
  induction a with
  | nil => simpa using isSubChars_self_append s b
  | cons c cs ih =>
    simp only [List.cons_append, isSubChars]
    simp [List.append_eq, ih]

theorem containsStr_surround (a sub b : String) :
    containsStr (a ++ sub ++ b) sub = true := by
  unfold containsStr
  rw [str_data_append, str_data_append, List.append_assoc]
  exact isSubChars_append a.data sub.data b.data

theorem splitFile_base_noslash (l : List Char) : '/' ∉ (splitFile l).2 := by
  induction l with
  | nil => simp [splitFile]
  | cons c cs ih =>
    simp only [splitFile]
    split
    · split
      · simpa using ih
      · next h2 =>
        simp only [List.mem_cons, not_or]
        exact ⟨fun he => h2 he.symm, ih⟩
    · simpa using ih

theorem splitFile_dir_shape (l : List Char) :
    (splitFile l).1 = [] ∨ ∃ d, (splitFile l).1 = d ++ ['/'] := by
  induction l with
  | nil => left; rfl
  | cons c cs ih =>
    simp only [splitFile]
    by_cases h1 : (splitFile cs).1 = []
    · by_cases h2 : c = '/'
      · right; exact ⟨[], by simp [h1, h2]⟩
      · left; simp [h1, h2]
    · right
      rcases ih with h | ⟨d, hd⟩
      · exact absurd h h1
      · exact ⟨c :: d, by simp [h1, hd]⟩

theorem splitFile_of_noslash {b : List Char} (hb : '/' ∉ b) :
    splitFile b = ([], b) := by
  induction b with
  | nil => rfl
  | cons c cs ih =>
    have hc : c ≠ '/' := fun he => hb (by simp [he])
    have hcs : '/' ∉ cs := fun hm => hb (by simp [hm])
    simp [splitFile, ih hcs, fun he => hc he]

theorem splitFile_append {d b : List Char}
    (hd : d = [] ∨ ∃ d0, d = d0 ++ ['/']) (hb : '/' ∉ b) :
    splitFile (d ++ b) = (d, b) := by
  induction d with
  | nil => simpa using splitFile_of_noslash hb
  | cons c cs ih =>
    rcases hd with h | ⟨d0, hd0⟩
    · exact absurd h (by simp)
    · cases d0 with
      | nil =>
        have hc : c = '/' := by simpa using congrArg (fun l => l.headD ' ') hd0
        have hcs : cs = [] := by
          have := congrArg List.tail hd0
          simpa using this
        subst hcs
        simp [splitFile, splitFile_of_noslash hb, hc]
      | cons c0 d0' =>
        have hc : c = c0 := by simpa using congrArg (fun l => l.headD ' ') hd0
        have hcs : cs = d0' ++ ['/'] := by
          have := congrArg List.tail hd0
          simpa using this
        have ih2 := ih (Or.inr ⟨d0', hcs⟩)
        have hne : cs ≠ [] := by simp [hcs]
        simp only [List.cons_append, splitFile, List.append_eq]
        rw [ih2]
        simp [hne]

/-- The directory component of a path, as a `String`, is either empty or
ends with a slash. -/
def SplitDir (dir : String) : Prop :=
  dir.data = [] ∨ ∃ d0, dir.data = d0 ++ ['/']

theorem splitDir_of_split (p : String) : SplitDir (filepathSplit p).1 :=
  splitFile_dir_shape p.data

theorem filepathSplit_concat {dir x : String} (hd : SplitDir dir)
    (hx : '/' ∉ x.data) : filepathSplit (dir ++ x) = (dir, x) := by
  unfold filepathSplit
  rw [str_data_append, splitFile_append hd hx]

theorem dirOf_concat {dir x : String} (hd : SplitDir dir)
    (hx : '/' ∉ x.data) : dirOf (dir ++ x) = dir := by
  unfold dirOf
  rw [filepathSplit_concat hd hx]

/-! ### Classification and reorder lemmas -/

theorem classifyFields_ok_eq {cls : FieldType → Except String Bool}
    {fields : List Field} {pairs : List (Field × Bool)}
    (h : classifyFields cls fields = .ok pairs) :
    pairs = fields.map (fun f => (f, classifiesFixed cls f)) ∧
    ∀ f ∈ fields, ∃ b, cls f.type = .ok b := by
  induction fields generalizing pairs with
  | nil =>
    simp only [classifyFields, Except.ok.injEq] at h
    subst h
    simp
  | cons f fs ih =>
    cases hc : cls f.type with
    | error e => simp [classifyFields, hc] at h
    | ok b =>
      cases hr : classifyFields cls fs with
      | error e => simp [classifyFields, hc, hr] at h
      | ok rest =>
        simp only [classifyFields, hc, hr, Except.ok.injEq] at h
        subst h
        obtain ⟨h1, h2⟩ := ih hr
        refine ⟨?_, ?_⟩
        · simp only [List.map_cons, h1, classifiesFixed, hc]
        · intro g hg
          rcases List.mem_cons.mp hg with rfl | hg
          · exact ⟨b, hc⟩
          · exact h2 g hg

theorem classifyFields_ok_of_all {cls : FieldType → Except String Bool}
    {l : List Field} (h : ∀ f ∈ l, ∃ b, cls f.type = .ok b) :
    classifyFields cls l = .ok (l.map (fun f => (f, classifiesFixed cls f))) := by
  induction l with
  | nil => rfl
  | cons f fs ih =>
    obtain ⟨b, hb⟩ := h f (by simp)
    have ih2 := ih (fun g hg => h g (by simp [hg]))
    simp [classifyFields, hb, ih2, classifiesFixed]

theorem map_filter_fst_pos (g : Field → Bool) (l : List Field) :
    ((l.map (fun f => (f, g f))).filter (fun p => p.2)).map Prod.fst =
      l.filter g := by
  induction l with
  | nil => rfl
  | cons f fs ih =>
    by_cases hg : g f <;> simp [List.filter_cons, hg, ih]

theorem map_filter_fst_neg (g : Field → Bool) (l : List Field) :
    ((l.map (fun f => (f, g f))).filter (fun p => !p.2)).map Prod.fst =
      l.filter (fun f => !g f) := by
  induction l with
  | nil => rfl
  | cons f fs ih =>
    by_cases hg : g f <;> simp [List.filter_cons, hg, ih]

theorem classifiesVar_eq_not_fixed {cls : FieldType → Except String Bool}
    {f : Field} (h : ∃ b, cls f.type = .ok b) :
    classifiesVar cls f = !classifiesFixed cls f := by
  obtain ⟨b, hb⟩ := h
  simp [classifiesVar, classifiesFixed, hb]

theorem reorder_ok_char {cls : FieldType → Except String Bool}
    {fields out : List Field}
    (h : reorderStructFields cls fields = .ok out) :
    out = fields.filter (classifiesFixed cls) ++
          fields.filter (classifiesVar cls) ∧
    ∀ f ∈ fields, ∃ b, cls f.type = .ok b := by
  unfold reorderStructFields at h
  cases hr : classifyFields cls fields with
  | error e => rw [hr] at h; cases h
  | ok pairs =>
    rw [hr] at h
    obtain ⟨h1, hall⟩ := classifyFields_ok_eq hr
    simp only [Except.ok.injEq] at h
    subst h
    subst h1
    refine ⟨?_, hall⟩
    rw [map_filter_fst_pos, map_filter_fst_neg]
    congr 1
    exact (List.filter_congr fun f hf =>
      (classifiesVar_eq_not_fixed (hall f hf)).symm)

theorem reorder_ok_of_all {cls : FieldType → Except String Bool}
    {l : List Field} (h : ∀ f ∈ l, ∃ b, cls f.type = .ok b) :
    reorderStructFields cls l =
      .ok (l.filter (classifiesFixed cls) ++ l.filter (classifiesVar cls)) := by
  unfold reorderStructFields
  rw [classifyFields_ok_of_all h]
  dsimp only
  rw [map_filter_fst_pos, map_filter_fst_neg]
  congr 2
  exact (List.filter_congr fun f hf =>
    (classifiesVar_eq_not_fixed (h f hf)).symm)

theorem classifyFields_error_of_mem {cls : FieldType → Except String Bool}
    {l : List Field} (h : ∃ f ∈ l, ∃ e, cls f.type = .error e) :
    ∃ e, classifyFields cls l = .error e ∧ ∃ f ∈ l, cls f.type = .error e := by
  induction l with
  | nil => simp at h
  | cons f fs ih =>
    cases hc : cls f.type with
    | error e =>
      exact ⟨e, by simp [classifyFields, hc], f, by simp, hc⟩
    | ok b =>
      have hfs : ∃ g ∈ fs, ∃ e, cls g.type = .error e := by
        obtain ⟨g, hg, e, he⟩ := h
        rcases List.mem_cons.mp hg with rfl | hg
        · rw [hc] at he; cases he
        · exact ⟨g, hg, e, he⟩
      obtain ⟨e, he, g, hg, hge⟩ := ih hfs
      exact ⟨e, by simp [classifyFields, hc, he], g, by simp [hg], hge⟩

/-! ### Envelope-extractor lemmas -/

theorem filterBaseField_eq (unexport : String → String × Option String)
    (s : StructLike) (acc : List StructLike × List StructLike) (f : Field) :
    filterBaseField unexport s acc f =
      (acc.1 ++ (if isBaseField unexport f then [s] else []),
       acc.2 ++ (if isBaseRespField unexport f then [s] else [])) := by
  unfold filterBaseField isBaseField isBaseRespField
  by_cases h1 : (unexport f.name).1 = "base" ∧ f.type.name = "base.Base"
  · by_cases h2 : (unexport f.name).1 = "baseResp" ∧
        f.type.name = "base.BaseResp"
    · exact absurd (h1.1.symm.trans h2.1) (by decide)
    · simp [h1.1, h1.2, h2]
  · by_cases h2 : (unexport f.name).1 = "baseResp" ∧
        f.type.name = "base.BaseResp"
    · simp [h1, h2.1, h2.2]
    · simp [h1, h2]

theorem filterBaseStruct_fold (unexport : String → String × Option String)
    (s : StructLike) (fs : List Field)
    (acc : List StructLike × List StructLike) :
    fs.foldl (filterBaseField unexport s) acc =
      (acc.1 ++
         List.replicate (fs.filter (isBaseField unexport)).length s,
       acc.2 ++
         List.replicate (fs.filter (isBaseRespField unexport)).length s) := by
  induction fs generalizing acc with
  | nil => simp
  | cons f fs ih =>
    rw [List.foldl_cons, ih, filterBaseField_eq]
    by_cases h1 : isBaseField unexport f <;>
      by_cases h2 : isBaseRespField unexport f <;>
        simp [List.filter_cons, h1, h2, List.replicate_succ]

theorem filterBaseStruct_eq (unexport : String → String × Option String)
    (acc : List StructLike × List StructLike) (s : StructLike) :
    filterBaseStruct unexport acc s =
      (acc.1 ++
         List.replicate (s.fields.filter (isBaseField unexport)).length s,
       acc.2 ++
         List.replicate (s.fields.filter (isBaseRespField unexport)).length s) :=
  filterBaseStruct_fold unexport s s.fields acc

theorem filterBase_characterization
    (unexport : String → String × Option String) (ast : Thrift) :
    filterBase unexport ast =
      (ast.structs.flatMap fun s =>
         List.replicate (s.fields.filter (isBaseField unexport)).length s,
       ast.structs.flatMap fun s =>
         List.replicate (s.fields.filter (isBaseRespField unexport)).length s) := by
  unfold filterBase
  suffices hgen : ∀ (l : List StructLike)
      (acc : List StructLike × List StructLike),
      l.foldl (filterBaseStruct unexport) acc =
        (acc.1 ++ (l.flatMap fun s =>
           List.replicate (s.fields.filter (isBaseField unexport)).length s),
         acc.2 ++ (l.flatMap fun s =>
           List.replicate
             (s.fields.filter (isBaseRespField unexport)).length s)) by
    rw [hgen]
    simp
  intro l
  induction l with
  | nil => simp
  | cons s ss ih =>
    intro acc
    rw [List.foldl_cons, filterBaseStruct_eq, ih]
    simp

/-! ### Error-propagation lemmas for the generation driver -/

theorem containsStr_of_data (s sub : String) (pre post : List Char)
    (h : s.data = pre ++ sub.data ++ post) : containsStr s sub = true := by
  unfold containsStr
  rw [h, List.append_assoc]
  exact isSubChars_append pre sub.data post

theorem patchStep_error_carries {env : PatchEnv}
    {st : List String × List Generated} {ast : Thrift} {e : String}
    (h : patchStep env st ast = .error e) :
    containsStr e ast.filename = true ∨ env.getFilePath ast = .error e := by
  unfold patchStep at h
  cases hb : env.buildScope ast with
  | error e1 =>
    rw [hb] at h
    dsimp only at h
    simp only [Except.error.injEq] at h
    subst h
    exact Or.inl (containsStr_of_data _ _
      ("build scope for ast ".data ++ "\"".data)
      ("\"".data ++ ": ".data ++ e1.data)
      (by simp [goQuote, str_data_append, List.append_assoc]))
  | ok u =>
    rw [hb] at h
    dsimp only at h
    cases hp : env.getFilePath ast with
    | error e2 =>
      rw [hp] at h
      dsimp only at h
      simp only [Except.error.injEq] at h
      subst h
      exact Or.inr rfl
    | ok path =>
      rw [hp] at h
      dsimp only at h
      cases hi : env.resolveImports ast with
      | error e3 =>
        rw [hi] at h
        dsimp only at h
        simp only [Except.error.injEq] at h
        subst h
        exact Or.inl (containsStr_of_data _ _
          ("resolve imports failed for ".data ++ "\"".data)
          ("\"".data ++ ": ".data ++ e3.data)
          (by simp [goQuote, str_data_append, List.append_assoc]))
      | ok imports =>
        rw [hi] at h
        dsimp only at h
        cases hr : env.renderFile ⟨ast, env.namespaceToPackage ast,
            filterStdLib env.module imports⟩ with
        | error e4 =>
          rw [hr] at h
          dsimp only at h
          simp only [Except.error.injEq] at h
          subst h
          exact Or.inl (containsStr_of_data _ _ ("\"".data)
            ("\"".data ++ ": ".data ++ e4.data)
            (by simp [goQuote, str_data_append, List.append_assoc]))
        | ok content =>
          rw [hr] at h
          dsimp only at h
          cases hcp : env.copyIDL with
          | false => rw [hcp] at h; simp at h
          | true =>
            rw [hcp] at h
            simp only [if_true] at h
            cases hrd : env.readFile ast.filename with
            | error e5 =>
              rw [hrd] at h
              dsimp only at h
              simp only [Except.error.injEq] at h
              subst h
              exact Or.inl (containsStr_of_data _ _
                ("read ".data ++ "\"".data)
                ("\"".data ++ ": ".data ++ e5.data)
                (by simp [goQuote, str_data_append, List.append_assoc]))
            | ok src =>
              rw [hrd] at h
              simp at h

theorem patchGo_error_carries {env : PatchEnv} :
    ∀ {asts : List Thrift} {st : List String × List Generated} {e : String},
    patchGo env st asts = .error e →
    ∃ ast, ast ∈ asts ∧
      (containsStr e ast.filename = true ∨ env.getFilePath ast = .error e) := by
  intro asts
  induction asts with
  | nil =>
    intro st e h
    simp [patchGo] at h
  | cons a rest ih =>
    intro st e h
    unfold patchGo at h
    cases hs : patchStep env st a with
    | error e1 =>
      rw [hs] at h
      dsimp only at h
      simp only [Except.error.injEq] at h
      subst h
      exact ⟨a, by simp, patchStep_error_carries hs⟩
    | ok st2 =>
      rw [hs] at h
      dsimp only at h
      obtain ⟨ast, hm, hp⟩ := ih h
      exact ⟨ast, by simp [hm], hp⟩

/-! ### Protection-file uniqueness machinery -/

/-- Invariant of the `patch` loop relating the protection registry to the
accumulated output units: every registered path is a protection path of
its own directory; for every registered path there is exactly one output
unit with that name, it is a protection unit, and it is the first output
unit of its directory; and every output unit's directory already has its
protection path registered. -/
def ProtInv (prot : List String) (patches : List Generated) : Prop :=
  (∀ c ∈ prot, constsPath (dirOf c) = c) ∧
  (∀ c ∈ prot, ∃ pkg,
     patches.filter (fun g => g.name == c) =
       [Generated.mk (protContent pkg) c] ∧
     patches.find? (fun g => dirOf g.name == dirOf c) =
       some (Generated.mk (protContent pkg) c)) ∧
  (∀ g ∈ patches, constsPath (dirOf g.name) ∈ prot)

theorem noslash_kconsts : '/' ∉ ("k-consts.go" : String).data := by decide

theorem dirOf_constsPath {dir : String} (hd : SplitDir dir) :
    dirOf (constsPath dir) = dir :=
  dirOf_concat hd noslash_kconsts

theorem concatname_ne_protname {dir bn c : String} (hd : SplitDir dir)
    (hb : '/' ∉ bn.data) (hbn : bn ≠ "k-consts.go")
    (hc : constsPath (dirOf c) = c) : dir ++ bn ≠ c := by
  intro he
  have hdir : dirOf c = dir := by rw [← he, dirOf_concat hd hb]
  rw [← hc, hdir] at he
  exact hbn (str_append_cancel_left he)

theorem kprefix_ne {base : String} (h : base ≠ "consts.go") :
    ("k-" ++ base : String) ≠ "k-consts.go" := by
  intro he
  rw [show ("k-consts.go" : String) = "k-" ++ "consts.go" from rfl] at he
  exact h (str_append_cancel_left he)

theorem noslash_kmark {base : String} (hb : '/' ∉ base.data) :
    '/' ∉ ("k-" ++ base : String).data := by
  rw [str_data_append]
  intro hm
  rcases List.mem_append.mp hm with hm | hm
  · exact absurd hm (by decide)
  · exact hb hm

theorem protInv_nil : ProtInv [] [] := by
  refine ⟨?_, ?_, ?_⟩ <;> simp

theorem protInv_append_unit {prot : List String} {patches : List Generated}
    (g : Generated) (hinv : ProtInv prot patches)
    (hmem : constsPath (dirOf g.name) ∈ prot)
    (hne : g.name ≠ constsPath (dirOf g.name)) :
    ProtInv prot (patches ++ [g]) := by
  obtain ⟨h1, h2, h3⟩ := hinv
  refine ⟨h1, ?_, ?_⟩
  · intro c hc
    obtain ⟨pkg, hf, hfind⟩ := h2 c hc
    have hgc : g.name ≠ c := by
      intro he
      have hcc := h1 c hc
      rw [← he] at hcc
      exact hne hcc.symm
    have hb : (g.name == c) = false := beq_eq_false_iff_ne.mpr hgc
    refine ⟨pkg, ?_, ?_⟩
    · rw [List.filter_append, hf]
      have hone : List.filter (fun g => g.name == c) [g] = [] := by
        simp [List.filter, hb]
      rw [hone, List.append_nil]
    · rw [List.find?_append, hfind]
      rfl
  · intro g2 hg2
    rcases List.mem_append.mp hg2 with hg2 | hg2
    · exact h3 g2 hg2
    · rw [List.mem_singleton.mp hg2]
      exact hmem

theorem protInv_addProtection {prot : List String} {patches : List Generated}
    {dir pkgName : String} (hd : SplitDir dir)
    (hinv : ProtInv prot patches) :
    ProtInv (addProtection (prot, patches) (constsPath dir) pkgName).1
            (addProtection (prot, patches) (constsPath dir) pkgName).2 ∧
    prot ⊆ (addProtection (prot, patches) (constsPath dir) pkgName).1 ∧
    constsPath dir ∈ (addProtection (prot, patches) (constsPath dir) pkgName).1 := by
  obtain ⟨h1, h2, h3⟩ := hinv
  unfold addProtection
  by_cases hmem : constsPath dir ∈ prot
  · rw [if_pos hmem]
    exact ⟨⟨h1, h2, h3⟩, fun x hx => hx, hmem⟩
  · rw [if_neg hmem]
    have hshape : constsPath (dirOf (constsPath dir)) = constsPath dir := by
      rw [dirOf_constsPath hd]
    refine ⟨⟨?_, ?_, ?_⟩, ?_, ?_⟩
    · intro c hc
      rcases List.mem_cons.mp hc with hceq | hc
      · rw [hceq]
        exact hshape
      · exact h1 c hc
    · intro c hc
      rcases List.mem_cons.mp hc with hceq | hc
      · subst hceq
        refine ⟨pkgName, ?_, ?_⟩
        · have hnil : List.filter (fun g => g.name == constsPath dir)
              patches = [] := by
            rw [List.filter_eq_nil_iff]
            intro g hg hgc
            rw [beq_iff_eq] at hgc
            have h3g := h3 g hg
            rw [hgc, dirOf_constsPath hd] at h3g
            exact hmem h3g
          rw [List.filter_append, hnil, List.nil_append]
          simp [List.filter]
        · have hnone : List.find?
              (fun g => dirOf g.name == dirOf (constsPath dir)) patches =
                none := by
            rw [List.find?_eq_none]
            intro g hg hgc
            rw [beq_iff_eq] at hgc
            have h3g := h3 g hg
            rw [hgc, dirOf_constsPath hd] at h3g
            exact hmem h3g
          rw [List.find?_append, hnone, Option.none_or]
          simp [List.find?]
      · obtain ⟨pkg, hf, hfind⟩ := h2 c hc
        have hgc : constsPath dir ≠ c := fun he => hmem (he ▸ hc)
        have hb : (constsPath dir == c) = false := beq_eq_false_iff_ne.mpr hgc
        refine ⟨pkg, ?_, ?_⟩
        · rw [List.filter_append, hf]
          have hone : List.filter (fun g => g.name == c)
              [Generated.mk (protContent pkgName) (constsPath dir)] = [] := by
            simp [List.filter, hb]
          rw [hone, List.append_nil]
        · rw [List.find?_append, hfind]
          rfl
    · intro g hg
      rcases List.mem_append.mp hg with hg | hg
      · exact List.mem_cons_of_mem _ (h3 g hg)
      · rw [List.mem_singleton.mp hg]
        rw [dirOf_constsPath hd]
        exact List.mem_cons_self _ _
    · exact fun x hx => List.mem_cons_of_mem _ hx
    · exact List.mem_cons_self _ _

theorem protInv_append_concat {prot : List String} {patches : List Generated}
    {dir bn : String} (hinv : ProtInv prot patches) (hd : SplitDir dir)
    (hb : '/' ∉ bn.data) (hbn : bn ≠ "k-consts.go")
    (hmem : constsPath dir ∈ prot) (content : String) :
    ProtInv prot (patches ++ [Generated.mk content (dir ++ bn)]) := by
  have hdir : dirOf (dir ++ bn) = dir := dirOf_concat hd hb
  refine protInv_append_unit _ hinv ?_ ?_
  · show constsPath (dirOf (dir ++ bn)) ∈ prot
    rw [hdir]
    exact hmem
  · show dir ++ bn ≠ constsPath (dirOf (dir ++ bn))
    rw [hdir]
    intro he
    exact hbn (str_append_cancel_left he)

theorem patchStep_inv {env : PatchEnv} {st st' : List String × List Generated}
    {ast : Thrift} (h : patchStep env st ast = .ok st')
    (hH1 : ∀ p, env.getFilePath ast = .ok p →
       (filepathSplit (filepathJoin env.outputPath p)).2 ≠ "consts.go")
    (hH2 : env.copyIDL = true → filepathBase ast.filename ≠ "k-consts.go")
    (hinv : ProtInv st.1 st.2) :
    ProtInv st'.1 st'.2 ∧ st.1 ⊆ st'.1 ∧
    (∀ p, env.getFilePath ast = .ok p →
       constsPath (filepathSplit (filepathJoin env.outputPath p)).1 ∈ st'.1) := by
  unfold patchStep at h
  cases hb : env.buildScope ast with
  | error e1 => rw [hb] at h; simp at h
  | ok u =>
    rw [hb] at h
    dsimp only at h
    cases hp : env.getFilePath ast with
    | error e2 => rw [hp] at h; simp at h
    | ok path =>
      rw [hp] at h
      dsimp only at h
      have hd : SplitDir ((filepathSplit (filepathJoin env.outputPath path)).1) :=
        splitDir_of_split (filepathJoin env.outputPath path)
      have hbase : '/' ∉
          ((filepathSplit (filepathJoin env.outputPath path)).2).data :=
        splitFile_base_noslash (filepathJoin env.outputPath path).data
      have hbne := hH1 path hp
      obtain ⟨hinv1, hsub1, hmem1⟩ :=
        @protInv_addProtection st.1 st.2
          ((filepathSplit (filepathJoin env.outputPath path)).1)
          (env.namespaceToPackage ast) hd hinv
      cases hi : env.resolveImports ast with
      | error e3 => rw [hi] at h; simp at h
      | ok imports =>
        rw [hi] at h
        dsimp only at h
        cases hr : env.renderFile ⟨ast, env.namespaceToPackage ast,
            filterStdLib env.module imports⟩ with
        | error e4 => rw [hr] at h; simp at h
        | ok content =>
          rw [hr] at h
          dsimp only at h
          have hinv2 : ProtInv
              (addProtection st
                (constsPath (filepathSplit (filepathJoin env.outputPath path)).1)
                (env.namespaceToPackage ast)).1
              ((addProtection st
                (constsPath (filepathSplit (filepathJoin env.outputPath path)).1)
                (env.namespaceToPackage ast)).2 ++
               [Generated.mk content
                 (targetPath (filepathSplit (filepathJoin env.outputPath path)).1
                   (filepathSplit (filepathJoin env.outputPath path)).2)]) :=
            protInv_append_concat hinv1 hd (noslash_kmark hbase)
              (kprefix_ne hbne) hmem1 content
          cases hcp : env.copyIDL with
          | false =>
            rw [hcp] at h
            rw [if_neg Bool.false_ne_true] at h
            simp only [Except.ok.injEq] at h
            subst h
            refine ⟨hinv2, fun x hx => hsub1 hx, ?_⟩
            intro p hpp
            have : path = p := by
              simpa using hpp
            subst this
            exact hmem1
          | true =>
            rw [hcp] at h
            rw [if_pos rfl] at h
            cases hrd : env.readFile ast.filename with
            | error e5 => rw [hrd] at h; simp at h
            | ok src =>
              rw [hrd] at h
              dsimp only at h
              simp only [Except.ok.injEq] at h
              subst h
              have hinv3 := protInv_append_concat hinv2 hd
                (splitFile_base_noslash ast.filename.data)
                (hH2 hcp) hmem1 src
              refine ⟨hinv3, fun x hx => hsub1 hx, ?_⟩
              intro p hpp
              have : path = p := by
                simpa using hpp
              subst this
              exact hmem1

theorem patchGo_inv {env : PatchEnv} :
    ∀ {asts : List Thrift} {st st' : List String × List Generated},
    patchGo env st asts = .ok st' →
    (∀ ast ∈ asts, ∀ p, env.getFilePath ast = .ok p →
       (filepathSplit (filepathJoin env.outputPath p)).2 ≠ "consts.go") →
    (env.copyIDL = true →
       ∀ ast ∈ asts, filepathBase ast.filename ≠ "k-consts.go") →
    ProtInv st.1 st.2 →
    ProtInv st'.1 st'.2 ∧ st.1 ⊆ st'.1 ∧
    (∀ ast ∈ asts, ∀ p, env.getFilePath ast = .ok p →
       constsPath (filepathSplit (filepathJoin env.outputPath p)).1 ∈ st'.1) := by
  intro asts
  induction asts with
  | nil =>
    intro st st' h _ _ hinv
    simp only [patchGo, Except.ok.injEq] at h
    subst h
    exact ⟨hinv, fun x hx => hx, by simp⟩
  | cons a rest ih =>
    intro st st' h hH1 hH2 hinv
    unfold patchGo at h
    cases hs : patchStep env st a with
    | error e => rw [hs] at h; simp at h
    | ok st2 =>
      rw [hs] at h
      dsimp only at h
      obtain ⟨hinv2, hsub2, hmem2⟩ :=
        patchStep_inv hs (hH1 a (by simp)) (fun hc => hH2 hc a (by simp)) hinv
      obtain ⟨hinv3, hsub3, hmem3⟩ :=
        ih h (fun ast hm => hH1 ast (by simp [hm]))
          (fun hc ast hm => hH2 hc ast (by simp [hm])) hinv2
      refine ⟨hinv3, fun x hx => hsub3 (hsub2 hx), ?_⟩
      intro ast hm p hp
      rcases List.mem_cons.mp hm with rfl | hm
      · exact hsub3 (hmem2 p hp)
      · exact hmem3 ast hm p hp

/-! ### Concrete environments and inputs used by witnesses -/

/-- Environment whose path resolver fails with a message that does not
mention any document. -/
def envPathErr : PatchEnv :=
  ⟨fun _ => .ok (), fun _ => .error "no such path", fun _ => .ok [],
   fun _ => "pkg", fun _ => .ok "body", fun _ => .ok "src", "out", "m", false⟩

/-- Environment whose template rendering fails. -/
def envRenderErr : PatchEnv :=
  ⟨fun _ => .ok (), fun _ => .ok "a/b.go", fun _ => .ok [], fun _ => "pkg",
   fun _ => .error "boom", fun _ => .ok "src", "out", "m", false⟩

/-- Environment in which every collaborator succeeds. -/
def envOkW : PatchEnv :=
  ⟨fun _ => .ok (), fun _ => .ok "a/b.go", fun _ => .ok [], fun _ => "pkg",
   fun _ => .ok "body", fun _ => .ok "src", "out", "m", false⟩

/-- Classifier of the spec scenario: `i64` and `bool` are fixed width,
`string` is not. -/
def clsW : FieldType → Except String Bool :=
  fun t => .ok (t.name == "i64" || t.name == "bool")

/-- Classifier failing on `string` fields. -/
def clsErrW : FieldType → Except String Bool :=
  fun t => if t.name = "string" then .error "cyclic" else .ok true

/-- Field sequence of the spec scenario `{id: i64, name: string,
active: bool}`. -/
def fieldsW : List Field :=
  [Field.mk "id" (FieldType.mk "i64"),
   Field.mk "name" (FieldType.mk "string"),
   Field.mk "active" (FieldType.mk "bool")]

/-- A one-struct document whose single field matches the request-envelope
shape. -/
def astEnvW : Thrift :=
  Thrift.mk "x.thrift"
    [StructLike.mk "Req" [Field.mk "base" (FieldType.mk "base.Base")]]

/-! ### Claim theorems -/

/-- C1, counterexample: the claim asserts that after `filterStdLib` the
mapping contains no entry whose path starts with the module prefix and in
particular that the scenario mapping filters to the empty mapping; on the
code the scenario filters to the singleton `example.com/mod/gen ↦ gen`,
an entry that does start with the module prefix, so the filtered mapping
is not empty. -/
theorem filterStdLib_scenario_keeps_module_entry :
    filterStdLib "example.com/mod"
      [("std/strings", ""), ("example.com/mod/gen", "gen"),
       ("github.com/apache/thrift/lib/go/thrift", "")] =
      [("example.com/mod/gen", "gen")] ∧
    filterStdLib "example.com/mod"
      [("std/strings", ""), ("example.com/mod/gen", "gen"),
       ("github.com/apache/thrift/lib/go/thrift", "")] ≠ [] := by
  constructor
  · rfl
  · intro he
    cases he

/-- C1, amended: module-prefixed entries are retained (the loop skips
them), and every entry surviving `filterStdLib` either starts with the
module prefix or is none of: the legacy apache thrift runtime path, a
thriftgo-prefixed path, a dot-free path; the scenario mapping filters to
the singleton `example.com/mod/gen ↦ gen`, not to the empty mapping. -/
theorem filterStdLib_closure_amended (module : String)
    (imports : List (String × String)) :
    ∀ e ∈ filterStdLib module imports,
      strStartsWith e.1 (module ++ "/") = true ∨
      (e.1 ≠ "github.com/apache/thrift/lib/go/thrift" ∧
       strStartsWith e.1 "github.com/cloudwego/thriftgo" = false ∧
       strHasChar e.1 '.' = true) := by
  intro e he
  unfold filterStdLib at he
  rw [List.mem_filter] at he
  have hpred := he.2
  by_cases h1 : strStartsWith e.1 (module ++ "/") = true
  · exact Or.inl h1
  · rw [if_neg h1] at hpred
    by_cases h2 : e.1 = "github.com/apache/thrift/lib/go/thrift"
    · rw [if_pos h2] at hpred
      cases hpred
    · rw [if_neg h2] at hpred
      by_cases h3 : strStartsWith e.1 "github.com/cloudwego/thriftgo" = true
      · rw [if_pos h3] at hpred
        cases hpred
      · rw [if_neg h3] at hpred
        by_cases h4 : strHasChar e.1 '.' = true
        · exact Or.inr ⟨h2, Bool.eq_false_iff.mpr h3, h4⟩
        · have h4f : strHasChar e.1 '.' = false := Bool.eq_false_iff.mpr h4
          rw [if_pos (by simp [h4f])] at hpred
          cases hpred

/-- C1, witness: the surviving scenario entry satisfies the amended
closure property (it starts with the module prefix). -/
theorem filterStdLib_closure_amended_witness :
    strStartsWith "example.com/mod/gen" ("example.com/mod" ++ "/") = true ∨
    (("example.com/mod/gen" : String) ≠
       "github.com/apache/thrift/lib/go/thrift" ∧
     strStartsWith "example.com/mod/gen" "github.com/cloudwego/thriftgo" =
       false ∧
     strHasChar "example.com/mod/gen" '.' = true) :=
  filterStdLib_closure_amended "example.com/mod"
    [("std/strings", ""), ("example.com/mod/gen", "gen"),
     ("github.com/apache/thrift/lib/go/thrift", "")]
    ("example.com/mod/gen", "gen") (by decide)

/-- C2, counterexample: the claim asserts the per-document target path is
always distinct from the fixed protection path; a document whose resolved
base name is `consts.go` (a `consts.thrift` source) makes the two
coincide — as the code's own comment anticipates. -/
theorem targetPath_collides_consts :
    targetPath "out/" "consts.go" = constsPath "out/" := rfl

/-- C2, amended: for every document base name other than `consts.go`, the
per-document target path is distinct from the fixed protection file path
of the same directory. -/
theorem targetPath_ne_consts_amended (dir base : String)
    (h : base ≠ "consts.go") : targetPath dir base ≠ constsPath dir := by
  intro he
  unfold targetPath constsPath at he
  exact kprefix_ne h (str_append_cancel_left he)

/-- C2, witness: at base name `a.go` the two paths differ. -/
theorem targetPath_ne_consts_amended_witness :
    targetPath "out/" "a.go" ≠ constsPath "out/" :=
  targetPath_ne_consts_amended "out/" "a.go" (by decide)

/-- C3, counterexample: the claim asserts every fatal error is returned
carrying the offending document's filename; an output-path-computation
error (`GetFilePath`) is propagated verbatim (`return nil, err`), so the
error for `a.thrift` does not mention `a.thrift`. -/
theorem patch_path_error_lacks_filename :
    patch envPathErr [Thrift.mk "a.thrift" []] = .error "no such path" ∧
    containsStr "no such path" "a.thrift" = false := by
  constructor
  · rfl
  · rfl

/-- C3, amended: whenever `patch` fails it hands no output list to the
caller, and the error either carries some processed document's filename
(scope resolution, import resolution, template render and verbatim read
errors are all wrapped with it) or is the output-path resolver's error
for some document propagated verbatim. -/
theorem patch_error_filename_amended (env : PatchEnv) (asts : List Thrift)
    (e : String) (h : patch env asts = .error e) :
    (∀ out, patch env asts ≠ .ok out) ∧
    ∃ ast, ast ∈ asts ∧
      (containsStr e ast.filename = true ∨ env.getFilePath ast = .error e) := by
  refine ⟨?_, ?_⟩
  · intro out hout
    rw [h] at hout
    cases hout
  · unfold patch at h
    cases hg : patchGo env ([], []) asts with
    | error e2 =>
      rw [hg] at h
      simp only [Except.error.injEq] at h
      subst h
      exact patchGo_error_carries hg
    | ok st =>
      rw [hg] at h
      cases h

/-- C3, witness: a render failure for `b.thrift` aborts the run with an
error that quotes the filename. -/
theorem patch_error_filename_amended_witness :
    (∀ out, patch envRenderErr [Thrift.mk "b.thrift" []] ≠ .ok out) ∧
    ∃ ast, ast ∈ [Thrift.mk "b.thrift" []] ∧
      (containsStr "\"b.thrift\": boom" ast.filename = true ∨
       envRenderErr.getFilePath ast = .error "\"b.thrift\": boom") :=
  patch_error_filename_amended envRenderErr [Thrift.mk "b.thrift" []]
    "\"b.thrift\": boom" rfl

/-- C4: when classification succeeds, `reorderStructFields` returns the
stable partition — the fixed-width fields in their original relative
order followed by the variable-width fields in their original relative
order. -/
theorem reorderStructFields_stable_partition
    (cls : FieldType → Except String Bool) (fields out : List Field)
    (h : reorderStructFields cls fields = .ok out) :
    out = fields.filter (classifiesFixed cls) ++
          fields.filter (classifiesVar cls) :=
  (reorder_ok_char h).1

/-- C4, witness: the spec scenario `{id: i64, name: string, active: bool}`
reorders to `{id, active, name}`. -/
theorem reorderStructFields_stable_partition_witness :
    [Field.mk "id" (FieldType.mk "i64"),
     Field.mk "active" (FieldType.mk "bool"),
     Field.mk "name" (FieldType.mk "string")] =
      fieldsW.filter (classifiesFixed clsW) ++
      fieldsW.filter (classifiesVar clsW) :=
  reorderStructFields_stable_partition clsW fieldsW
    [Field.mk "id" (FieldType.mk "i64"),
     Field.mk "active" (FieldType.mk "bool"),
     Field.mk "name" (FieldType.mk "string")] rfl

/-- C5: in a successful run, every directory some document maps to has
its protection path registered; and for every registered protection path
there is exactly one output unit with that name — a protection unit —
and it is the first output unit of its directory, hence it precedes every
document-triggered unit there.  The two side conditions make
identification of units by file name unambiguous: no document's resolved
base name is `consts.go` and no copied IDL source is named
`k-consts.go` (otherwise a document unit would share the protection
unit's name by design, the code comment's renaming case). -/
theorem patch_protection_unique (env : PatchEnv) (asts : List Thrift)
    (prot : List String) (out : List Generated)
    (h : patchGo env ([], []) asts = .ok (prot, out))
    (hnc : ∀ ast ∈ asts, ∀ p, env.getFilePath ast = .ok p →
       (filepathSplit (filepathJoin env.outputPath p)).2 ≠ "consts.go")
    (hni : env.copyIDL = true →
       ∀ ast ∈ asts, filepathBase ast.filename ≠ "k-consts.go") :
    (∀ ast ∈ asts, ∀ p, env.getFilePath ast = .ok p →
       constsPath (filepathSplit (filepathJoin env.outputPath p)).1 ∈ prot) ∧
    ∀ c ∈ prot, ∃ pkg,
      out.filter (fun g => g.name == c) = [Generated.mk (protContent pkg) c] ∧
      out.find? (fun g => dirOf g.name == dirOf c) =
        some (Generated.mk (protContent pkg) c) := by
  obtain ⟨hinv, _, hmem⟩ := patchGo_inv h hnc hni protInv_nil
  exact ⟨hmem, hinv.2.1⟩

/-- C5, witness: a one-document run produces exactly one protection unit
for `out/a/`, listed before the document's own unit. -/
theorem patch_protection_unique_witness :
    (∀ ast ∈ [Thrift.mk "b.thrift" []], ∀ p,
       envOkW.getFilePath ast = .ok p →
       constsPath (filepathSplit (filepathJoin envOkW.outputPath p)).1 ∈
         ["out/a/k-consts.go"]) ∧
    ∀ c ∈ ["out/a/k-consts.go"], ∃ pkg,
      ([Generated.mk (protContent "pkg") "out/a/k-consts.go",
        Generated.mk "body" "out/a/k-b.go"]).filter
          (fun g => g.name == c) = [Generated.mk (protContent pkg) c] ∧
      ([Generated.mk (protContent "pkg") "out/a/k-consts.go",
        Generated.mk "body" "out/a/k-b.go"]).find?
          (fun g => dirOf g.name == dirOf c) =
        some (Generated.mk (protContent pkg) c) :=
  patch_protection_unique envOkW [Thrift.mk "b.thrift" []]
    ["out/a/k-consts.go"]
    [Generated.mk (protContent "pkg") "out/a/k-consts.go",
     Generated.mk "body" "out/a/k-b.go"]
    rfl
    (by
      intro ast hm p hp
      injection hp with hpe
      subst hpe
      decide)
    (fun hc => absurd hc (by decide))

/-- C6: `filterBase` appends the owning struct to `Requests` once per
field whose unexported name is exactly `"base"` with type name exactly
`"base.Base"`, and to `Responses` once per field named `"baseResp"` of
type `"base.BaseResp"`; matching is per-field full-string equality, so a
struct with several qualifying fields occurs several times and structs
occur in declaration order. -/
theorem filterBase_envelope_exact
    (unexport : String → String × Option String) (ast : Thrift) :
    filterBase unexport ast =
      (ast.structs.flatMap fun s =>
         List.replicate (s.fields.filter (isBaseField unexport)).length s,
       ast.structs.flatMap fun s =>
         List.replicate
           (s.fields.filter (isBaseRespField unexport)).length s) :=
  filterBase_characterization unexport ast

/-- C7: reordering is idempotent — applying `reorderStructFields` to its
own successful output returns that output unchanged. -/
theorem reorderStructFields_idempotent
    (cls : FieldType → Except String Bool) (fields out : List Field)
    (h : reorderStructFields cls fields = .ok out) :
    reorderStructFields cls out = .ok out := by
  obtain ⟨hchar, hall⟩ := reorder_ok_char h
  have hallout : ∀ f ∈ out, ∃ b, cls f.type = .ok b := by
    intro f hf
    rw [hchar] at hf
    rcases List.mem_append.mp hf with hf | hf
    · exact hall f (List.mem_of_mem_filter hf)
    · exact hall f (List.mem_of_mem_filter hf)
  rw [reorder_ok_of_all hallout, hchar]
  congr 1
  rw [List.filter_append, List.filter_append]
  have hA : (fields.filter (classifiesFixed cls)).filter
      (classifiesFixed cls) = fields.filter (classifiesFixed cls) :=
    List.filter_eq_self.mpr fun a ha => (List.mem_filter.mp ha).2
  have hB : (fields.filter (classifiesVar cls)).filter
      (classifiesVar cls) = fields.filter (classifiesVar cls) :=
    List.filter_eq_self.mpr fun a ha => (List.mem_filter.mp ha).2
  have hBn : (fields.filter (classifiesVar cls)).filter
      (classifiesFixed cls) = [] := by
    rw [List.filter_eq_nil_iff]
    intro a ha hfix
    have hvar := (List.mem_filter.mp ha).2
    obtain ⟨b, hb⟩ := hall a (List.mem_of_mem_filter ha)
    simp only [classifiesVar, hb] at hvar
    simp only [classifiesFixed, hb] at hfix
    rw [hfix] at hvar
    cases hvar
  have hAn : (fields.filter (classifiesFixed cls)).filter
      (classifiesVar cls) = [] := by
    rw [List.filter_eq_nil_iff]
    intro a ha hvar
    have hfix := (List.mem_filter.mp ha).2
    obtain ⟨b, hb⟩ := hall a (List.mem_of_mem_filter ha)
    simp only [classifiesVar, hb] at hvar
    simp only [classifiesFixed, hb] at hfix
    rw [hfix] at hvar
    cases hvar
  rw [hA, hB, hBn, hAn]
  simp

/-- C7, witness: reapplying the reorder to the reordered scenario
sequence leaves it unchanged. -/
theorem reorderStructFields_idempotent_witness :
    reorderStructFields clsW
      [Field.mk "id" (FieldType.mk "i64"),
       Field.mk "active" (FieldType.mk "bool"),
       Field.mk "name" (FieldType.mk "string")] =
      .ok [Field.mk "id" (FieldType.mk "i64"),
           Field.mk "active" (FieldType.mk "bool"),
           Field.mk "name" (FieldType.mk "string")] :=
  reorderStructFields_idempotent clsW fieldsW
    [Field.mk "id" (FieldType.mk "i64"),
     Field.mk "active" (FieldType.mk "bool"),
     Field.mk "name" (FieldType.mk "string")] rfl

/-- C8: if the classifier errors on any field, the whole reorder fails,
propagating some field's classifier error verbatim (and, the result
being an error, no partially reordered sequence is produced). -/
theorem reorderStructFields_error_propagates
    (cls : FieldType → Except String Bool) (fields : List Field)
    (h : ∃ f ∈ fields, ∃ e, cls f.type = .error e) :
    ∃ e, reorderStructFields cls fields = .error e ∧
      ∃ f ∈ fields, cls f.type = .error e := by
  obtain ⟨e, he, hf⟩ := classifyFields_error_of_mem h
  refine ⟨e, ?_, hf⟩
  unfold reorderStructFields
  rw [he]

/-- C8, witness: a classifier failing on `string` makes the scenario
sequence's reorder fail with that error. -/
theorem reorderStructFields_error_propagates_witness :
    ∃ e, reorderStructFields clsErrW fieldsW = .error e ∧
      ∃ f ∈ fieldsW, clsErrW f.type = .error e :=
  reorderStructFields_error_propagates clsErrW fieldsW
    ⟨Field.mk "name" (FieldType.mk "string"), by decide, "cyclic", rfl⟩

/-- C9: the `TypeIDToGoType` helper is total — it maps the eight thrift
type identifiers to their canonical Go names and every other input to the
empty string. -/
theorem TypeIDToGoType_total (t : String) :
    TypeIDToGoType t =
      if t = "Bool" then "bool"
      else if t = "Byte" then "int8"
      else if t = "I16" then "int16"
      else if t = "I32" then "int32"
      else if t = "I64" then "int64"
      else if t = "Double" then "float64"
      else if t = "String" then "string"
      else if t = "Binary" then "[]byte"
      else "" := by
  by_cases h1 : t = "Bool"
  · subst h1; rfl
  by_cases h2 : t = "Byte"
  · subst h2; rfl
  by_cases h3 : t = "I16"
  · subst h3; rfl
  by_cases h4 : t = "I32"
  · subst h4; rfl
  by_cases h5 : t = "I64"
  · subst h5; rfl
  by_cases h6 : t = "Double"
  · subst h6; rfl
  by_cases h7 : t = "String"
  · subst h7; rfl
  by_cases h8 : t = "Binary"
  · subst h8; rfl
  have b1 : (t == "Bool") = false := beq_eq_false_iff_ne.mpr h1
  have b2 : (t == "Byte") = false := beq_eq_false_iff_ne.mpr h2
  have b3 : (t == "I16") = false := beq_eq_false_iff_ne.mpr h3
  have b4 : (t == "I32") = false := beq_eq_false_iff_ne.mpr h4
  have b5 : (t == "I64") = false := beq_eq_false_iff_ne.mpr h5
  have b6 : (t == "Double") = false := beq_eq_false_iff_ne.mpr h6
  have b7 : (t == "String") = false := beq_eq_false_iff_ne.mpr h7
  have b8 : (t == "Binary") = false := beq_eq_false_iff_ne.mpr h8
  simp [TypeIDToGoType, typeIDToGoType, List.lookup, b1, b2, b3, b4, b5, b6,
    b7, b8, h1, h2, h3, h4, h5, h6, h7, h8]

/-- C10: `filterBase` never fails and discards the normalization error —
its result depends only on the value component of `Unexport`, so two
normalizers agreeing on values (one always erroring, one never) extract
identical envelopes. -/
theorem filterBase_ignores_unexport_error
    (u1 u2 : String → String × Option String) (ast : Thrift)
    (h : ∀ n, (u1 n).1 = (u2 n).1) :
    filterBase u1 ast = filterBase u2 ast := by
  rw [filterBase_characterization u1 ast, filterBase_characterization u2 ast]
  have hfb : isBaseField u1 = isBaseField u2 := by
    funext f
    unfold isBaseField
    rw [h f.name]
  have hfr : isBaseRespField u1 = isBaseRespField u2 := by
    funext f
    unfold isBaseRespField
    rw [h f.name]
  rw [hfb, hfr]

/-- C10, witness: an always-erroring normalizer and a never-erroring one
with the same values extract the same envelopes from a matching
document. -/
theorem filterBase_ignores_unexport_error_witness :
    filterBase (fun n => (n, some "err")) astEnvW =
      filterBase (fun n => (n, none)) astEnvW :=
  filterBase_ignores_unexport_error (fun n => (n, some "err"))
    (fun n => (n, none)) astEnvW (fun _ => rfl)

end KitexPatcher
